import Mathlib

/-!
Verification development for the `sample-consensus` crate
(`src/src/lib.rs`).  The crate is trait-only: it declares the `Model`,
`Estimator`, `Consensus` and `MultiConsensus` contracts but contains no
consensus-engine implementation.  Interface facts (signatures, receiver
modes, generic bounds) are embedded directly from `lib.rs`; behavioural
obligations that the crate only states in documentation, and the RANSAC
search loop that the specification describes, are modelled from the
specification's words and marked as such in their doc comments.

Residual values are `f32` in the source; we embed them in `ℚ`, which
contains every finite `f32` value and keeps every definition executable.
-/

namespace SampleConsensus

/-! ## The Model contract (lib.rs lines 4–24)

`trait Model<Data> { fn residual(&self, data: &Data) -> f32; }`

The trait fixes the residual's return type to a 32-bit float; the
precision is not a type parameter of the trait, so a caller cannot
instantiate it at 64 bits. -/

/-- Floating-point widths a residual value could conceivably use. -/
inductive FloatWidth where
  | f32
  | f64
deriving DecidableEq, Repr

/-- The return type of `Model::residual` in `lib.rs` line 23 is `f32`:
its width is the fixed constant 32, chosen by the trait, not by the
caller. -/
def residualReturnWidth : FloatWidth := FloatWidth.f32

/-- Modelled from the spec: a lawful implementor of the `Model` trait.
The Rust trait only declares the signature
`fn residual(&self, data: &Data) -> f32`; the requirement that the
residual be non-negative is stated by the specification ("must be able
to produce a deterministic, non-negative residual"), so we bundle it
with the residual function as the contract a lawful model satisfies. -/
structure ModelInst (M D : Type) where
  residual : M → D → ℚ
  residual_nonneg : ∀ (m : M) (d : D), 0 ≤ residual m d

/-- A mutable world holding the caller's dataset.  Rust calls that take
the data by shared reference `&Data` are embedded as world transformers,
so that "the call does not mutate the dataset" is an equation on the
world. -/
structure Store (D : Type) where
  data : List D

/-- Calling `Model::residual` (lib.rs line 23): the receiver `&self`
and the argument `&Data` are shared references, so the call returns the
residual value and leaves the world untouched. -/
def callResidual {M D : Type} (inst : ModelInst M D) (m : M) (d : D)
    (s : Store D) : ℚ × Store D :=
  (inst.residual m d, s)

/-! ## The Estimator contract (lib.rs lines 26–50)

`trait Estimator<Data> { const MIN_SAMPLES: usize;
  fn estimate<'a, I>(&self, data: I) -> Self::ModelIter
  where I: Iterator<Item = &'a Data> + Clone; }` -/

/-- An implementor of the `Estimator` trait: the associated constant
`MIN_SAMPLES` and the model-fitting function underlying `estimate`
(`ModelIter` is embedded as a list of models). -/
structure EstimatorInst (M D : Type) where
  minSamples : ℕ
  fit : List D → List M

/-- Modelled from the spec: the behavioural contract of
`Estimator::estimate`, which `lib.rs` only documents ("This must be
passed at least `Self::MIN_SAMPLES` data points, otherwise `estimate`
should panic to indicate a developer error").  A panic is embedded as
`Except.error`; a normal return as `Except.ok` with the fitted models
(possibly empty, for a degenerate sample). -/
def estimateChecked {M D : Type} (E : EstimatorInst M D) (data : List D) :
    Except String (List M) :=
  if data.length < E.minSamples then
    Except.error "called estimate with fewer than MIN_SAMPLES data points"
  else
    Except.ok (E.fit data)

/-- Calling `Estimator::estimate` (lib.rs lines 45–48): the receiver is
`&self` and the data iterator yields `&'a Data`, both shared references,
so the call leaves the estimator value and the world untouched. -/
def callEstimate {M D : Type} (E : EstimatorInst M D) (s : Store D) :
    Except String (List M) × EstimatorInst M D × Store D :=
  (estimateChecked E s.data, E, s)

/-! ## Generic bounds of the data iterators

Each operation that consumes the dataset constrains its iterator type
parameter `I`; we record each operation's bound as data read off the
`where` clauses of `lib.rs`. -/

/-- The `where` clause a dataset-consuming operation puts on its
iterator type parameter `I`. -/
structure IterBound where
  itemByRef : Bool
  clonable : Bool
deriving DecidableEq, Repr

/-- `Estimator::estimate` (lib.rs line 47): `I: Iterator<Item = &'a Data> + Clone`. -/
def estimateIterBound : IterBound := ⟨true, true⟩

/-- `Consensus::model` (lib.rs line 69): `I: Iterator<Item = Data> + Clone`. -/
def consensusModelIterBound : IterBound := ⟨false, true⟩

/-- `Consensus::model_inliers` (lib.rs line 76): `I: Iterator<Item = Data> + Clone`. -/
def consensusModelInliersIterBound : IterBound := ⟨false, true⟩

/-- `MultiConsensus::models` (lib.rs line 97): `I: Iterator<Item = Data> + Clone`. -/
def multiConsensusModelsIterBound : IterBound := ⟨false, true⟩

/-- Receiver mode of `Estimator::estimate` (lib.rs line 45): `&self`,
not `&mut self`. -/
def estimateReceiverMutable : Bool := false

/-- Receiver mode of `Consensus::model` (lib.rs line 67): `&mut self`. -/
def consensusModelReceiverMutable : Bool := true

/-- Receiver mode of `Consensus::model_inliers` (lib.rs line 74): `&mut self`. -/
def consensusModelInliersReceiverMutable : Bool := true

/-! ## The single-model consensus search

Modelled from the spec (§4.3): the crate only declares the `Consensus`
trait; the search loop below implements the three phases Sample /
Estimate-and-Score / Stop-Continue described there.  The randomness
capability (§6) is an abstract stream `sampler : ℕ → List ℕ` giving the
indices drawn for each trial.  The adaptive stopping rule
`trials ≥ log (1 - p) / log (1 - w ^ MIN_SAMPLES)` is evaluated in the
logarithm-free equivalent form `(1 - w ^ MIN_SAMPLES) ^ trials ≤ 1 - p`,
which keeps the engine executable over `ℚ`; the bridge to the spec's
logarithmic formula is proved below (`rpow-free` bridge lemmas). -/

/-- Number of inliers of model `m` over the full dataset: the points
whose residual is at or below the inlier threshold (spec §4.3 phase 2). -/
def countInliers {M D : Type} (inst : ModelInst M D) (thr : ℚ) (m : M)
    (data : List D) : ℕ :=
  (data.filter (fun d => inst.residual m d ≤ thr)).length

/-- Indices (relative to the caller-supplied ordering) of the inliers of
model `m`: positions whose point has residual at or below the threshold
(spec §3, "Inlier set"). -/
def inlierIndices {M D : Type} (inst : ModelInst M D) (thr : ℚ) (m : M)
    (data : List D) : List ℕ :=
  (List.range data.length).filter fun i =>
    ((data[i]?).map fun d => decide (inst.residual m d ≤ thr)).getD false

/-- Keep the better of the current best candidate and a new candidate:
larger inlier count wins, and on a tie the earlier-found candidate is
kept (spec §4.3 edge-case policy; the mean-residual refinement of the
tie-break is omitted — no claim below depends on it). -/
def mergeBest {M : Type} : Option (M × ℕ) → Option (M × ℕ) → Option (M × ℕ)
  | none, c => c
  | some b, none => some b
  | some b, some c => if b.2 < c.2 then some c else some b

/-- Best candidate among a list of scored candidates, earliest first on
ties. -/
def pickBest {M : Type} : Option (M × ℕ) → List (M × ℕ) → Option (M × ℕ)
  | best, [] => best
  | best, c :: cs => pickBest (mergeBest best (some c)) cs

/-- Inlier count of an optional best candidate (`0` when none yet). -/
def bestCount {M : Type} (best : Option (M × ℕ)) : ℕ :=
  (best.map Prod.snd).getD 0

/-- Engine configuration recognized by the single-model search
(spec §6): inlier threshold, target confidence and hard trial ceiling. -/
structure SearchParams where
  threshold : ℚ
  confidence : ℚ
  maxTrials : ℕ

/-- One trial (spec §4.3 phases 1–2): draw the trial's sample indices
from the randomness stream, estimate candidate models from the sampled
subset, score every candidate by its inlier count over the full
dataset, and keep the best of this trial.  A degenerate sample (the
estimator returns no models) yields `none`. -/
def runTrial {M D : Type} (inst : ModelInst M D) (E : EstimatorInst M D)
    (thr : ℚ) (sampler : ℕ → List ℕ) (data : List D) (t : ℕ) :
    Option (M × ℕ) :=
  let sample := (sampler t).filterMap fun i => data[i]?
  pickBest none ((E.fit sample).map fun m => (m, countInliers inst thr m data))

/-- The adaptive stopping rule (spec §4.3 phase 3) in logarithm-free
form: with current best inlier count `b` out of `n` points, stop after
`t` trials when `(1 - (b / n) ^ MIN_SAMPLES) ^ t ≤ 1 - confidence`,
which for parameters in range is exactly
`t ≥ log (1 - confidence) / log (1 - (b / n) ^ MIN_SAMPLES)`.
A full inlier ratio (`b = n`) makes the left side `0`, so the rule also
stops as soon as the inlier ratio reaches `1.0`. -/
def stopCheck {M : Type} (k : ℕ) (p : ℚ) (n : ℕ) (best : Option (M × ℕ))
    (t : ℕ) : Bool :=
  decide ((1 - ((bestCount best : ℚ) / (n : ℚ)) ^ k) ^ t ≤ 1 - p)

/-- The search loop (spec §4.3): run a trial, merge its best candidate
into the running best, and stop when the adaptive rule is satisfied or
the remaining trial budget (`fuel`, initially the hard ceiling) runs
out.  Returns the best candidate found and the number of trials
executed. -/
def searchLoop {M D : Type} (inst : ModelInst M D) (E : EstimatorInst M D)
    (prm : SearchParams) (sampler : ℕ → List ℕ) (data : List D) :
    ℕ → ℕ → Option (M × ℕ) → Option (M × ℕ) × ℕ
  | 0, t, best => (best, t)
  | fuel + 1, t, best =>
    let best1 := mergeBest best (runTrial inst E prm.threshold sampler data t)
    if stopCheck E.minSamples prm.confidence data.length best1 (t + 1) then
      (best1, t + 1)
    else
      searchLoop inst E prm sampler data fuel (t + 1) best1

/-- The full single-model search: loop from zero trials and no
candidate, with the hard trial ceiling as the budget. -/
def ransacSearch {M D : Type} (inst : ModelInst M D) (E : EstimatorInst M D)
    (prm : SearchParams) (sampler : ℕ → List ℕ) (data : List D) :
    Option (M × ℕ) × ℕ :=
  searchLoop inst E prm sampler data prm.maxTrials 0 none

/-- `Consensus::model` (lib.rs lines 67–69), modelled from the spec:
`None` exactly when the search found no valid model; the no-consensus
outcome is a value of the `Option`, never a panic (the function is
total). -/
def ransacModel {M D : Type} (inst : ModelInst M D) (E : EstimatorInst M D)
    (prm : SearchParams) (sampler : ℕ → List ℕ) (data : List D) : Option M :=
  ((ransacSearch inst E prm sampler data).1).map Prod.fst

/-- `Consensus::model_inliers` (lib.rs lines 74–76), modelled from the
spec: like `ransacModel` but pairing the winning model with the indices
of its inliers. -/
def ransacModelInliers {M D : Type} (inst : ModelInst M D)
    (E : EstimatorInst M D) (prm : SearchParams) (sampler : ℕ → List ℕ)
    (data : List D) : Option (M × List ℕ) :=
  ((ransacSearch inst E prm sampler data).1).map fun c =>
    (c.1, inlierIndices inst prm.threshold c.1 data)

/-- A `Consensus` implementor's state (lib.rs lines 54–58: the trait
takes `&mut self` so an implementor may hold an RNG and scratch state):
search parameters, the randomness stream, and the current position in
that stream. -/
structure RansacState where
  prm : SearchParams
  sampler : ℕ → List ℕ
  rngPos : ℕ

/-- Calling `Consensus::model` on a stateful engine: the receiver is
`&mut self`, so the call may return an updated state — here the RNG
position advances by the number of trials executed. -/
def ransacModelCall {M D : Type} (st : RansacState) (inst : ModelInst M D)
    (E : EstimatorInst M D) (data : List D) : Option M × RansacState :=
  let r := ransacSearch inst E st.prm (fun t => st.sampler (st.rngPos + t)) data
  ((r.1).map Prod.fst, { st with rngPos := st.rngPos + r.2 })

/-! ## The multi-model consensus search (spec §4.4) -/

/-- Configuration of the multi-model search (spec §6): the single-model
parameters plus the cap on returned models and the minimum inlier
support below which the search stops. -/
structure MultiParams where
  single : SearchParams
  maxModels : ℕ
  minModelSupport : ℕ

/-- The not-yet-claimed points: the dataset restricted to indices not
claimed by a previously discovered model (spec §4.4 step 2 removes
claimed inliers from candidacy for later best-model searches). -/
def unclaimedData {D : Type} (data : List D) (claimed : List ℕ) : List D :=
  ((List.range data.length).filter fun i => !(claimed.contains i)).filterMap
    fun i => data[i]?

/-- Modelled from the spec (§4.4): repeatedly run the single-model
search on the not-yet-claimed points; each discovered model's inlier
set is computed over the *full* dataset (claimed points stay eligible
as inliers of later models), its inliers are then claimed, and the
rounds stop when no model is found, a model's support falls below the
minimum, or the model cap (`fuel`) is reached.  Models are returned in
discovery order; §4.4's final descending sort is omitted — no claim
below depends on it. -/
def multiLoop {M D : Type} (inst : ModelInst M D) (E : EstimatorInst M D)
    (mp : MultiParams) (sampler : ℕ → List ℕ) (data : List D) :
    ℕ → List ℕ → List (M × List ℕ)
  | 0, _ => []
  | fuel + 1, claimed =>
    match (ransacSearch inst E mp.single sampler (unclaimedData data claimed)).1 with
    | none => []
    | some c =>
      let inl := inlierIndices inst mp.single.threshold c.1 data
      if inl.length < mp.minModelSupport then []
      else (c.1, inl) :: multiLoop inst E mp sampler data fuel (claimed ++ inl)

/-- `MultiConsensus::models` (lib.rs lines 91–98), modelled from the
spec: the return type is a bare collection of (model, inlier set)
pairs — mirroring `-> Self::Models` in the source, which offers no
`Option` or error channel — and the no-model outcome is the empty
collection. -/
def multiModels {M D : Type} (inst : ModelInst M D) (E : EstimatorInst M D)
    (mp : MultiParams) (sampler : ℕ → List ℕ) (data : List D) :
    List (M × List ℕ) :=
  multiLoop inst E mp sampler data mp.maxModels []

/-! ## Concrete instances used to exercise the theorems -/

/-- A trivial lawful model over `Unit` data: every residual is `0`. -/
def unitModelInst : ModelInst Unit Unit :=
  ⟨fun _ _ => 0, fun _ _ => le_refl 0⟩

/-- An estimator whose every sample is degenerate: it never produces a
model (`MIN_SAMPLES = 1`). -/
def unitEstimatorNone : EstimatorInst Unit Unit := ⟨1, fun _ => []⟩

/-- An estimator that always produces the single trivial model
(`MIN_SAMPLES = 1`). -/
def unitEstimatorOne : EstimatorInst Unit Unit := ⟨1, fun _ => [()]⟩

/-- A one-point world over `Unit` data. -/
def unitStore : Store Unit := ⟨[()]⟩

/-- A concrete consensus-engine state: threshold `0`, confidence `1/2`,
hard ceiling of one trial, a randomness stream that always draws index
`0`, positioned at the start of the stream. -/
def testState : RansacState := ⟨⟨0, 1 / 2, 1⟩, fun _ => [0], 0⟩

/-! ## Claim theorems -/

/-- C1: for every lawful model and every data point of the matching
type, the residual is non-negative, and calling `residual` is a pure,
deterministic function of the model and the point alone: the returned
value is exactly `inst.residual m d` whatever the world is, and the
world (which holds the caller's data) is returned unchanged. -/
theorem residual_nonneg_pure {M D : Type} (inst : ModelInst M D) (m : M)
    (d : D) (s : Store D) :
    0 ≤ inst.residual m d ∧ callResidual inst m d s = (inst.residual m d, s) :=
  ⟨inst.residual_nonneg m d, rfl⟩

/-- C2: `Estimator::estimate` panics (embedded as `Except.error`)
exactly when called with fewer than `MIN_SAMPLES` data points, and under
the precondition that at least `MIN_SAMPLES` points are supplied it
returns normally — the panic branch is unreachable. -/
theorem estimate_panic_contract {M D : Type} (E : EstimatorInst M D)
    (data : List D) :
    (data.length < E.minSamples →
      estimateChecked E data =
        Except.error "called estimate with fewer than MIN_SAMPLES data points") ∧
    (E.minSamples ≤ data.length →
      estimateChecked E data = Except.ok (E.fit data)) := by
  refine ⟨fun h => ?_, fun h => ?_⟩
  · simp [estimateChecked, if_pos h]
  · simp [estimateChecked, if_neg (Nat.not_lt.mpr h)]

/-- Witness for C2 at a concrete estimator with `MIN_SAMPLES = 1`: the
empty dataset panics, a one-point dataset returns normally. -/
theorem estimate_panic_contract_witness :
    ([] : List Unit).length < unitEstimatorNone.minSamples ∧
    unitEstimatorNone.minSamples ≤ ([()] : List Unit).length ∧
    estimateChecked unitEstimatorNone [] =
      Except.error "called estimate with fewer than MIN_SAMPLES data points" ∧
    estimateChecked unitEstimatorNone [()] = Except.ok [] :=
  ⟨by decide, by decide,
   (estimate_panic_contract unitEstimatorNone []).1 (by decide),
   (estimate_panic_contract unitEstimatorNone [()]).2 (by decide)⟩

/-- C6 counterexample: the Model contract does not let a caller select
a 64-bit residual — `lib.rs` line 23 fixes the return type of
`Model::residual` to `f32`, so the 64-bit width is not an instance of
the contract. -/
theorem residual_width_not_selectable :
    residualReturnWidth ≠ FloatWidth.f64 := by
  decide

/-- C6 amended: the numeric width of the residual is fixed by the Model
contract at 32 bits (`f32`); it is not caller-selectable.  The crate's
documentation justifies the fixed 32-bit width as sufficient when
residuals only feed inlier thresholding. -/
theorem residual_width_fixed_f32 :
    residualReturnWidth = FloatWidth.f32 := rfl

/-- C7: every operation that consumes the dataset — `Estimator::estimate`,
`Consensus::model`, `Consensus::model_inliers` and
`MultiConsensus::models` — bounds its data-iterator parameter by
`Clone`, so the same logical dataset can be traversed more than once
within a single call. -/
theorem data_iterators_clonable :
    estimateIterBound.clonable = true ∧
    consensusModelIterBound.clonable = true ∧
    consensusModelInliersIterBound.clonable = true ∧
    multiConsensusModelsIterBound.clonable = true :=
  ⟨rfl, rfl, rfl, rfl⟩

/-- C8: no operation mutates the caller's data: a `Model::residual`
call and an `Estimator::estimate` call both return the world — and in
it the dataset — unchanged, and every inlier index is a valid position
of the caller-supplied dataset ordering. -/
theorem data_never_mutated {M D : Type} (inst : ModelInst M D)
    (E : EstimatorInst M D) (m : M) (d : D) (thr : ℚ) (s : Store D) :
    (callResidual inst m d s).2 = s ∧
    (callEstimate E s).2.2 = s ∧
    ∀ i ∈ inlierIndices inst thr m s.data, i < s.data.length := by
  refine ⟨rfl, rfl, fun i hi => ?_⟩
  exact List.mem_range.mp (List.mem_of_mem_filter hi)

/-- Witness for C8 at the one-point world: index `0` is an inlier index
of the trivial model and is a valid position. -/
theorem data_never_mutated_witness :
    (callResidual unitModelInst () () unitStore).2 = unitStore ∧
    (0 : ℕ) < unitStore.data.length :=
  ⟨(data_never_mutated unitModelInst unitEstimatorNone () () 0 unitStore).1,
   (data_never_mutated unitModelInst unitEstimatorNone () () 0 unitStore).2.2 0
     (by decide)⟩

/-- C9: `Estimator::estimate` takes `&self`, so a call returns the
estimator unchanged; the consensus operations instead take `&mut self`,
and a consensus call can change the engine state (here the RNG position
advances). -/
theorem estimator_unchanged_by_estimate :
    (∀ (M D : Type) (E : EstimatorInst M D) (s : Store D),
      (callEstimate E s).2.1 = E) ∧
    estimateReceiverMutable = false ∧
    consensusModelReceiverMutable = true ∧
    consensusModelInliersReceiverMutable = true ∧
    (ransacModelCall testState unitModelInst unitEstimatorNone [()]).2.rngPos ≠
      testState.rngPos := by
  refine ⟨fun _ _ _ _ => rfl, rfl, rfl, rfl, ?_⟩
  have h : stopCheck 1 ((1 : ℚ) / 2) 1 (none : Option (Unit × ℕ)) 1 = false := by
    simp [stopCheck, bestCount]
  simp [ransacModelCall, ransacSearch, searchLoop, runTrial, testState,
    unitEstimatorNone, pickBest, mergeBest, h]

/-- Witness for C9: the estimator-preservation clause at a concrete
estimator and world, and the state change of a concrete consensus
call. -/
theorem estimator_unchanged_by_estimate_witness :
    (callEstimate unitEstimatorNone unitStore).2.1 = unitEstimatorNone ∧
    (ransacModelCall testState unitModelInst unitEstimatorNone [()]).2.rngPos ≠
      testState.rngPos :=
  ⟨estimator_unchanged_by_estimate.1 Unit Unit unitEstimatorNone unitStore,
   estimator_unchanged_by_estimate.2.2.2.2⟩

/-- An estimator that never fits a model makes every trial degenerate. -/
theorem runTrial_eq_none {M D : Type} (inst : ModelInst M D)
    (E : EstimatorInst M D) (thr : ℚ) (sampler : ℕ → List ℕ) (data : List D)
    (t : ℕ) (hfit : ∀ s, E.fit s = []) :
    runTrial inst E thr sampler data t = none := by
  simp [runTrial, hfit, pickBest]

/-- When every trial is degenerate the search loop never acquires a
candidate: started with no candidate it ends with no candidate. -/
theorem searchLoop_none_of_trials_none {M D : Type} (inst : ModelInst M D)
    (E : EstimatorInst M D) (prm : SearchParams) (sampler : ℕ → List ℕ)
    (data : List D)
    (hrun : ∀ t, runTrial inst E prm.threshold sampler data t = none) :
    ∀ fuel t, (searchLoop inst E prm sampler data fuel t none).1 = none := by
  intro fuel
  induction fuel with
  | zero => intro t; rfl
  | succ f ih =>
    intro t
    simp only [searchLoop, hrun t, mergeBest]
    split
    · rfl
    · exact ih (t + 1)

/-- C5: on a dataset of at least `MIN_SAMPLES` points on which no valid
model is ever found (every trial's estimator output is empty), both
`Consensus::model` and `Consensus::model_inliers` return the explicit
"no model" value `none`; the functions are total, so the no-consensus
outcome is never a panic. -/
theorem no_consensus_yields_none {M D : Type} (inst : ModelInst M D)
    (E : EstimatorInst M D) (prm : SearchParams) (sampler : ℕ → List ℕ)
    (data : List D) (hmin : E.minSamples ≤ data.length)
    (hfit : ∀ s, E.fit s = []) :
    ransacModel inst E prm sampler data = none ∧
    ransacModelInliers inst E prm sampler data = none := by
  have h : (ransacSearch inst E prm sampler data).1 = none :=
    searchLoop_none_of_trials_none inst E prm sampler data
      (fun t => runTrial_eq_none inst E prm.threshold sampler data t hfit)
      prm.maxTrials 0
  constructor
  · simp [ransacModel, h]
  · simp [ransacModelInliers, h]

/-- Witness for C5: a one-point dataset (at least `MIN_SAMPLES = 1`
points) with an estimator whose every sample is degenerate yields the
explicit `none`. -/
theorem no_consensus_yields_none_witness :
    unitEstimatorNone.minSamples ≤ ([()] : List Unit).length ∧
    ransacModel unitModelInst unitEstimatorNone ⟨0, 1 / 2, 2⟩
      (fun _ => [0]) [()] = none :=
  ⟨by decide,
   (no_consensus_yields_none unitModelInst unitEstimatorNone ⟨0, 1 / 2, 2⟩
      (fun _ => [0]) [()] (by decide) (fun _ => rfl)).1⟩

/-- C10: `MultiConsensus::models` has no failure mode at the interface:
its codomain is a bare list of (model, inlier set) pairs — there is no
`Option` or error value to signal "no model" — and when no model is
ever found it returns the empty collection. -/
theorem multi_models_empty_not_error {M D : Type} (inst : ModelInst M D)
    (E : EstimatorInst M D) (mp : MultiParams) (sampler : ℕ → List ℕ)
    (data : List D) (hfit : ∀ s, E.fit s = []) :
    multiModels inst E mp sampler data = ([] : List (M × List ℕ)) := by
  obtain ⟨sgl, mm, msup⟩ := mp
  have hsearch : (ransacSearch inst E sgl sampler (unclaimedData data [])).1 = none :=
    searchLoop_none_of_trials_none inst E sgl sampler (unclaimedData data [])
      (fun t =>
        runTrial_eq_none inst E sgl.threshold sampler (unclaimedData data []) t hfit)
      sgl.maxTrials 0
  cases mm with
  | zero => rfl
  | succ f => simp [multiModels, multiLoop, hsearch]

/-- Witness for C10: a concrete all-degenerate run returns the empty
collection. -/
theorem multi_models_empty_not_error_witness :
    multiModels unitModelInst unitEstimatorNone ⟨⟨0, 1 / 2, 2⟩, 3, 1⟩
      (fun _ => [0]) [()] = [] :=
  multi_models_empty_not_error unitModelInst unitEstimatorNone
    ⟨⟨0, 1 / 2, 2⟩, 3, 1⟩ (fun _ => [0]) [()] (fun _ => rfl)

/-! ## The adaptive stopping rule: trial-count bound (C4)

The spec's required trial count is
`log (1 - confidence) / log (1 - w ^ MIN_SAMPLES)`; the engine's
logarithm-free check `(1 - w ^ MIN_SAMPLES) ^ t ≤ 1 - confidence` is
connected to it by `pow_le_of_log_div_le` below, and the loop is then
shown never to run more than `⌈…⌉ + 1` trials once its best candidate
has inlier ratio at least `w`, nor ever more than the hard ceiling. -/

/-- An inlier count never exceeds the dataset size. -/
theorem countInliers_le_length {M D : Type} (inst : ModelInst M D) (thr : ℚ)
    (m : M) (data : List D) : countInliers inst thr m data ≤ data.length :=
  List.length_filter_le _ _

/-- Merging candidates keeps the inlier count bounded by the dataset
size. -/
theorem bestCount_mergeBest_le {M : Type} {b c : Option (M × ℕ)} {n : ℕ}
    (hb : bestCount b ≤ n) (hc : bestCount c ≤ n) :
    bestCount (mergeBest b c) ≤ n := by
  cases b <;> cases c <;> simp_all [mergeBest, bestCount]
  split <;> simp_all

/-- Merging a new candidate never decreases the running best inlier
count. -/
theorem bestCount_le_mergeBest {M : Type} (b c : Option (M × ℕ)) :
    bestCount b ≤ bestCount (mergeBest b c) := by
  cases b <;> cases c <;> simp [mergeBest, bestCount]
  split <;> simp_all [le_of_lt]

/-- The best of a candidate list keeps the inlier count bounded by the
dataset size. -/
theorem bestCount_pickBest_le {M : Type} {n : ℕ} :
    ∀ (cs : List (M × ℕ)) (b : Option (M × ℕ)), bestCount b ≤ n →
      (∀ c ∈ cs, c.2 ≤ n) → bestCount (pickBest b cs) ≤ n := by
  intro cs
  induction cs with
  | nil => intro b hb _; exact hb
  | cons c cs ih =>
    intro b hb hcs
    refine ih (mergeBest b (some c)) ?_ (fun x hx => hcs x (List.mem_cons_of_mem c hx))
    exact bestCount_mergeBest_le hb (by simpa [bestCount] using hcs c (List.mem_cons_self c cs))

/-- A trial's best candidate has inlier count bounded by the dataset
size. -/
theorem bestCount_runTrial_le {M D : Type} (inst : ModelInst M D)
    (E : EstimatorInst M D) (thr : ℚ) (sampler : ℕ → List ℕ) (data : List D)
    (t : ℕ) : bestCount (runTrial inst E thr sampler data t) ≤ data.length := by
  unfold runTrial
  refine bestCount_pickBest_le _ none (by simp [bestCount]) ?_
  intro c hc
  obtain ⟨m, _, rfl⟩ := List.mem_map.mp hc
  exact countInliers_le_length inst thr m data

/-- Bridge from the spec's logarithmic trial-count formula to the
engine's logarithm-free stopping check: for a base in `(0, 1)` and a
positive target, `t` at least `log target / log base` forces
`base ^ t ≤ target`. -/
theorem pow_le_of_log_div_le {a b : ℝ} (ha0 : 0 < a) (ha1 : a < 1)
    (hb0 : 0 < b) {t : ℕ} (ht : Real.log b / Real.log a ≤ (t : ℝ)) :
    a ^ t ≤ b := by
  have hla : Real.log a < 0 := Real.log_neg ha0 ha1
  have h1 : (t : ℝ) * Real.log a ≤ Real.log b := (div_le_iff_of_neg hla).mp ht
  have h2 : Real.log (a ^ t) ≤ Real.log b := by
    rwa [Real.log_pow]
  calc a ^ t = Real.exp (Real.log (a ^ t)) := (Real.exp_log (pow_pos ha0 t)).symm
    _ ≤ Real.exp (Real.log b) := Real.exp_le_exp.mpr h2
    _ = b := Real.exp_log hb0

/-- Once the running best candidate has inlier ratio at least `w`, the
stopping check passes at every trial count from
`max 1 ⌈log (1 - p) / log (1 - w ^ k)⌉` on. -/
theorem stopCheck_true_of_ratio {M : Type} {k n t : ℕ} {w p : ℚ}
    (best : Option (M × ℕ)) (hk : 1 ≤ k) (hn : 0 < n) (hp1 : p < 1)
    (hw0 : 0 < w) (hw1 : w < 1)
    (hb : w * (n : ℚ) ≤ (bestCount best : ℚ)) (hbn : bestCount best ≤ n)
    (ht : max 1 ⌈Real.log (1 - (p : ℝ)) / Real.log (1 - (w : ℝ) ^ k)⌉₊ ≤ t) :
    stopCheck k p n best t = true := by
  simp only [stopCheck, decide_eq_true_eq]
  set b := bestCount best with hbdef
  set r : ℚ := (b : ℚ) / (n : ℚ) with hrdef
  have hnq : (0 : ℚ) < (n : ℚ) := by exact_mod_cast hn
  have hwr : w ≤ r := (le_div_iff₀ hnq).mpr hb
  have hr1 : r ≤ 1 := by
    rw [hrdef, div_le_one hnq]
    exact_mod_cast hbn
  have hw0' : (0 : ℚ) ≤ w := le_of_lt hw0
  have hr0 : (0 : ℚ) ≤ r := le_trans hw0' hwr
  have hrk1 : r ^ k ≤ 1 := pow_le_one₀ hr0 hr1
  have hwkrk : w ^ k ≤ r ^ k := pow_le_pow_left hw0' hwr k
  have h1 : (0 : ℚ) ≤ 1 - r ^ k := by linarith
  have h2 : 1 - r ^ k ≤ 1 - w ^ k := by linarith
  have h3 : (1 - r ^ k) ^ t ≤ (1 - w ^ k) ^ t := pow_le_pow_left h1 h2 t
  have hwk1 : w ^ k < 1 := pow_lt_one hw0' hw1 (Nat.one_le_iff_ne_zero.mp hk)
  have hwkpos : (0 : ℚ) < w ^ k := pow_pos hw0 k
  have h0wk : (0 : ℚ) ≤ 1 - w ^ k := by linarith
  have h1wk : (1 : ℚ) - w ^ k ≤ 1 := by linarith
  set N := max 1 ⌈Real.log (1 - (p : ℝ)) / Real.log (1 - (w : ℝ) ^ k)⌉₊ with hNdef
  have h4 : (1 - w ^ k) ^ t ≤ (1 - w ^ k) ^ N := pow_le_pow_of_le_one h0wk h1wk ht
  have hwkR : (0 : ℝ) < (w : ℝ) ^ k := by exact_mod_cast hwkpos
  have hwk1R : (w : ℝ) ^ k < 1 := by exact_mod_cast hwk1
  have ha0 : (0 : ℝ) < 1 - (w : ℝ) ^ k := by linarith
  have ha1 : 1 - (w : ℝ) ^ k < 1 := by linarith
  have hpR : (p : ℝ) < 1 := by exact_mod_cast hp1
  have hb0 : (0 : ℝ) < 1 - (p : ℝ) := by linarith
  have hLN : Real.log (1 - (p : ℝ)) / Real.log (1 - (w : ℝ) ^ k) ≤ (N : ℝ) := by
    have h6 : ⌈Real.log (1 - (p : ℝ)) / Real.log (1 - (w : ℝ) ^ k)⌉₊ ≤ N :=
      le_max_right 1 _
    exact le_trans (Nat.le_ceil _) (Nat.cast_le.mpr h6)
  have h5R : (1 - (w : ℝ) ^ k) ^ N ≤ 1 - (p : ℝ) :=
    pow_le_of_log_div_le ha0 ha1 hb0 hLN
  have h5 : (1 - w ^ k) ^ N ≤ 1 - p := by exact_mod_cast h5R
  exact le_trans h3 (le_trans h4 h5)

/-- The search loop never executes more trials than its fuel (the hard
trial ceiling). -/
theorem searchLoop_trials_le_fuel {M D : Type} (inst : ModelInst M D)
    (E : EstimatorInst M D) (prm : SearchParams) (sampler : ℕ → List ℕ)
    (data : List D) :
    ∀ fuel t best, (searchLoop inst E prm sampler data fuel t best).2 ≤ t + fuel := by
  intro fuel
  induction fuel with
  | zero => intro t best; simp [searchLoop]
  | succ f ih =>
    intro t best
    simp only [searchLoop]
    split
    · simp
    · exact le_trans (ih (t + 1) _) (by omega)

/-- Once the running best candidate has inlier ratio at least `w`, the
search loop stops within `max 1 ⌈log (1 - p) / log (1 - w ^ k)⌉`
trials. -/
theorem searchLoop_trials_le_bound {M D : Type} (inst : ModelInst M D)
    (E : EstimatorInst M D) (prm : SearchParams) (sampler : ℕ → List ℕ)
    (data : List D) {w : ℚ} (hk : 1 ≤ E.minSamples) (hn : 0 < data.length)
    (hp1 : prm.confidence < 1) (hw0 : 0 < w) (hw1 : w < 1) :
    ∀ fuel t best, w * (data.length : ℚ) ≤ (bestCount best : ℚ) →
      bestCount best ≤ data.length →
      (searchLoop inst E prm sampler data fuel t best).2 ≤
        max (t + 1) (max 1 ⌈Real.log (1 - (prm.confidence : ℝ)) /
          Real.log (1 - (w : ℝ) ^ E.minSamples)⌉₊) := by
  set N := max 1 ⌈Real.log (1 - (prm.confidence : ℝ)) /
    Real.log (1 - (w : ℝ) ^ E.minSamples)⌉₊ with hNdef
  intro fuel
  induction fuel with
  | zero =>
    intro t best _ _
    simp only [searchLoop]
    exact le_max_of_le_left (Nat.le_succ t)
  | succ f ih =>
    intro t best hlow hup
    have hb1low : w * (data.length : ℚ) ≤
        (bestCount (mergeBest best (runTrial inst E prm.threshold sampler data t)) : ℚ) := by
      refine le_trans hlow ?_
      exact_mod_cast bestCount_le_mergeBest best _
    have hb1up : bestCount (mergeBest best (runTrial inst E prm.threshold sampler data t)) ≤
        data.length :=
      bestCount_mergeBest_le hup (bestCount_runTrial_le inst E prm.threshold sampler data t)
    simp only [searchLoop]
    split
    · exact le_max_of_le_left (le_refl (t + 1))
    · next h =>
      have hcheck : ¬ (N ≤ t + 1) := fun hc =>
        h (stopCheck_true_of_ratio _ hk hn hp1 hw0 hw1 hb1low hb1up hc)
      calc (searchLoop inst E prm sampler data f (t + 1)
            (mergeBest best (runTrial inst E prm.threshold sampler data t))).2
          ≤ max (t + 1 + 1) N := ih (t + 1) _ hb1low hb1up
        _ = N := max_eq_right (by omega)
        _ ≤ max (t + 1) N := le_max_right _ _

/-- C4: for every run of the single-model search whose first trial
already realizes inlier ratio `w` (so the adaptive rule is driven by
`w`), with any confidence in `(0, 1)`: the loop terminates — it never
executes more trials than the hard ceiling — and the number of trials
executed never exceeds
`⌈log (1 - confidence) / log (1 - w ^ MIN_SAMPLES)⌉ + 1`. -/
theorem ransac_trials_bounded {M D : Type} (inst : ModelInst M D)
    (E : EstimatorInst M D) (prm : SearchParams) (sampler : ℕ → List ℕ)
    (data : List D) {w : ℚ} (hk : 1 ≤ E.minSamples) (hn : 0 < data.length)
    (hp0 : 0 < prm.confidence) (hp1 : prm.confidence < 1)
    (hw0 : 0 < w) (hw1 : w < 1)
    (hfirst : w * (data.length : ℚ) ≤
      (bestCount (runTrial inst E prm.threshold sampler data 0) : ℚ)) :
    (ransacSearch inst E prm sampler data).2 ≤ prm.maxTrials ∧
    (ransacSearch inst E prm sampler data).2 ≤
      ⌈Real.log (1 - (prm.confidence : ℝ)) /
        Real.log (1 - (w : ℝ) ^ E.minSamples)⌉₊ + 1 := by
  constructor
  · simpa [ransacSearch] using
      searchLoop_trials_le_fuel inst E prm sampler data prm.maxTrials 0 none
  · set C := ⌈Real.log (1 - (prm.confidence : ℝ)) /
      Real.log (1 - (w : ℝ) ^ E.minSamples)⌉₊ with hCdef
    cases hmT : prm.maxTrials with
    | zero =>
      simp only [ransacSearch, hmT, searchLoop]
      omega
    | succ f =>
      simp only [ransacSearch, hmT, searchLoop]
      have hXlow : w * (data.length : ℚ) ≤
          (bestCount (mergeBest none (runTrial inst E prm.threshold sampler data 0)) : ℚ) := by
        simpa [mergeBest] using hfirst
      have hXup : bestCount (mergeBest none (runTrial inst E prm.threshold sampler data 0)) ≤
          data.length := by
        simpa [mergeBest] using bestCount_runTrial_le inst E prm.threshold sampler data 0
      split
      · simp only []
        omega
      · next h =>
        have hcheck : ¬ (max 1 C ≤ 0 + 1) := fun hc =>
          h (stopCheck_true_of_ratio _ hk hn hp1 hw0 hw1 hXlow hXup hc)
        have hb := searchLoop_trials_le_bound inst E prm sampler data hk hn hp1 hw0 hw1
          f (0 + 1) (mergeBest none (runTrial inst E prm.threshold sampler data 0))
          hXlow hXup
        rw [← hCdef] at hb
        omega

/-- Witness for C4 at a concrete run: the trivial model, an estimator
that always fits, a one-point dataset, confidence `1/2` and inlier
ratio `w = 1/2`. -/
theorem ransac_trials_bounded_witness :
    (1 ≤ unitEstimatorOne.minSamples ∧ 0 < ([()] : List Unit).length ∧
      (0 : ℚ) < 1 / 2 ∧ (1 / 2 : ℚ) < 1) ∧
    (ransacSearch unitModelInst unitEstimatorOne ⟨0, 1 / 2, 5⟩
        (fun _ => [0]) [()]).2 ≤ 5 ∧
    (ransacSearch unitModelInst unitEstimatorOne ⟨0, 1 / 2, 5⟩
        (fun _ => [0]) [()]).2 ≤
      ⌈Real.log (1 - ((1 / 2 : ℚ) : ℝ)) /
        Real.log (1 - ((1 / 2 : ℚ) : ℝ) ^ unitEstimatorOne.minSamples)⌉₊ + 1 := by
  have hfirst : (1 / 2 : ℚ) * (([()] : List Unit).length : ℚ) ≤
      (bestCount (runTrial unitModelInst unitEstimatorOne 0 (fun _ => [0]) [()] 0) : ℚ) := by
    norm_num [runTrial, unitEstimatorOne, unitModelInst, pickBest, mergeBest,
      countInliers, bestCount]
  have h := ransac_trials_bounded unitModelInst unitEstimatorOne ⟨0, 1 / 2, 5⟩
    (fun _ => [0]) [()] (w := 1 / 2) (by decide) (by decide) (by norm_num)
    (by norm_num) (by norm_num) (by norm_num) hfirst
  exact ⟨⟨by decide, by decide, by norm_num, by norm_num⟩, h.1, h.2⟩

end SampleConsensus
